import Mathlib

/-!
# Verification of the Calcurs rational-arithmetic kernel

Shallow embedding of `src/src/rational.rs` and `src/macros/src/lib.rs`.

The Rust type `Rational` wraps `malachite::Rational`, an arbitrary-precision
rational kept in canonical form (lowest terms, positive denominator, zero as
`0/1`).  Lean's `ℚ` has exactly this canonical representation
(`Rat.num : ℤ`, `Rat.den : ℕ`, reduced, positive denominator), so a value of
the Rust type is embedded as a `ℚ`.  Malachite's accessors map as follows:
`numerator_ref()` (an unsigned `Natural`) is `x.num.natAbs`,
`denominator_ref()` is `x.den`, and `sign()` is the three-way comparison of
the value with zero.  Machine integers (`i64`, `u64`) are embedded as `ℤ`/`ℕ`
with their range bounds made explicit where the code performs a fallible
conversion, and release-mode (wrapping) semantics for `i64` multiplication.
Rust panics are embedded as an explicit error value.
-/

set_option autoImplicit false

namespace Calcurs

namespace Rational

/-- Embedding of `malachite::Rational::sign` (`self.0.sign()`): the three-way
sign of the rational value. -/
def sign (x : ℚ) : Ordering :=
  if x < 0 then Ordering.lt else if x = 0 then Ordering.eq else Ordering.gt

/-- Embedding of `Rational::is_zero` (rational.rs lines 34-40). -/
def is_zero (x : ℚ) : Bool :=
  match sign x with
  | Ordering.eq => true
  | _ => false

/-- Embedding of `Rational::is_one` (rational.rs lines 41-43). -/
def is_one (x : ℚ) : Bool :=
  decide (x = 1)

/-- Embedding of `Rational::is_pos` (rational.rs lines 44-50). -/
def is_pos (x : ℚ) : Bool :=
  match sign x with
  | Ordering.gt => true
  | _ => false

/-- Embedding of `Rational::is_neg` (rational.rs lines 51-57). -/
def is_neg (x : ℚ) : Bool :=
  match sign x with
  | Ordering.lt => true
  | _ => false

/-- Embedding of `Rational::is_int` (rational.rs lines 59-62):
`malachite::Rational::is_integer` holds exactly when the denominator is 1. -/
def is_int (x : ℚ) : Bool :=
  x.den == 1

/-- Embedding of `Rational::try_into_int` (rational.rs lines 64-72).
The source takes `self.0.numerator_ref()` — the UNSIGNED numerator
(`x.num.natAbs`) — and applies `i64::try_from(&Natural)`, which succeeds
exactly when the natural fits below `i64::MAX = 2^63 - 1` and yields the
(always non-negative) value.  The sign of the rational is never consulted. -/
def try_into_int (x : ℚ) : Option ℤ :=
  if is_int x then
    if x.num.natAbs ≤ 2 ^ 63 - 1 then some (x.num.natAbs : ℤ) else none
  else none

/-- Embedding of `Rational::inverse` (rational.rs lines 74-89): `none` for
zero; otherwise the numerator and denominator (both unsigned naturals) are
swapped via `from_naturals(denom, num)` and the result is multiplied by -1
when the input was negative. -/
def inverse (x : ℚ) : Option ℚ :=
  if is_zero x then none
  else
    let r : ℚ := mkRat (x.den : ℤ) x.num.natAbs
    some (if is_neg x then r * (-1) else r)

/-- Embedding of `Rational::abs` (rational.rs lines 91-93). -/
def abs (x : ℚ) : ℚ :=
  |x|

/-- The two `panic!` sites reachable from `Rational::pow`: the explicit
`panic!("0^0")` and the `Option::unwrap` on `self.inverse()` when the base
is zero and the exponent negative. -/
inductive PowFatal where
  | zeroPowZero
  | inverseUnwrapNone
  deriving DecidableEq

instance {ε α : Type} [DecidableEq ε] [DecidableEq α] : DecidableEq (Except ε α) := fun a b =>
  match a, b with
  | Except.error x, Except.error y =>
    if h : x = y then isTrue (congrArg Except.error h)
    else isFalse (fun hc => h (Except.error.inj hc))
  | Except.error _, Except.ok _ => isFalse (fun hc => Except.noConfusion hc)
  | Except.ok _, Except.error _ => isFalse (fun hc => Except.noConfusion hc)
  | Except.ok x, Except.ok y =>
    if h : x = y then isTrue (congrArg Except.ok h)
    else isFalse (fun hc => h (Except.ok.inj hc))

/-- Embedding of the part of `Rational::pow` (rational.rs lines 122-148)
that runs after the zero-exponent checks and the negative-exponent inversion,
i.e. with `rhs` known positive (the `debug_assert!(rhs.is_pos())` point).
`u64::try_from` on a `Natural` succeeds exactly when the value is at most
`2^64 - 1`; `pow_assign` is exact rational exponentiation by a natural
number; `num.div_rem(den)` is euclidean quotient and remainder on naturals,
and `Rational::from(rem)` embeds the natural `rem` as the rational
`rem/1`. -/
def powPositive (x e : ℚ) : Except PowFatal (ℚ × ℚ) :=
  if is_int e then
    if e.num.natAbs ≤ 2 ^ 64 - 1 then
      Except.ok (x ^ e.num.natAbs, 1)
    else
      Except.ok (x, e)
  else if e.den < e.num.natAbs then
    let quot := e.num.natAbs / e.den
    let rem := e.num.natAbs % e.den
    if quot ≤ 2 ^ 64 - 1 then
      Except.ok (x ^ quot, (rem : ℚ))
    else
      Except.ok (x, e)
  else
    Except.ok (x, e)

/-- Embedding of `Rational::pow` (rational.rs lines 107-149).  A Rust panic
is `Except.error`: the explicit `panic!("0^0")` and the
`self.inverse().unwrap()` on a zero base with a negative exponent.  A normal
return of the pair `(base, residual exponent)` is `Except.ok`. -/
def pow (x e : ℚ) : Except PowFatal (ℚ × ℚ) :=
  if is_zero x && is_zero e then
    Except.error PowFatal.zeroPowZero
  else if is_zero e then
    Except.ok (1, 1)
  else if is_neg e then
    match inverse x with
    | some xi => powPositive xi (abs e)
    | none => Except.error PowFatal.inverseUnwrapNone
  else
    powPositive x e

/-- Embedding of `impl ops::Add for Rational` (rational.rs lines 180-188):
exact rational addition delegated to malachite. -/
def add (a b : ℚ) : ℚ :=
  a + b

/-- Embedding of `impl ops::Sub for Rational` (rational.rs lines 194-202). -/
def sub (a b : ℚ) : ℚ :=
  a - b

/-- Embedding of `impl ops::Mul for Rational` (rational.rs lines 208-216). -/
def mul (a b : ℚ) : ℚ :=
  a * b

/-- Embedding of `impl ops::Div for Rational` (rational.rs lines 222-234):
`None` when the divisor is zero, otherwise exact rational division. -/
def divide (a b : ℚ) : Option ℚ :=
  if is_zero b then none else some (a / b)

/-- Embedding of `Rational::zero` (rational.rs lines 21-24). -/
def zero : ℚ := 0

/-- Embedding of `Rational::one` (rational.rs lines 25-28). -/
def one : ℚ := 1

/-- Embedding of `Rational::minus_one` (rational.rs lines 29-32). -/
def minus_one : ℚ := -1

/-- Embedding of `impl From<i64> for Rational` (rational.rs lines 236-240);
`From<i32>` (lines 241-245) is the same map restricted to a smaller range. -/
def fromInt (n : ℤ) : ℚ :=
  (n : ℚ)

/-- Embedding of `impl From<(u64, u64)> for Rational` (rational.rs lines
246-252): `from_naturals(n, d)` is the reduced fraction `n/d`.  Malachite
requires a non-zero denominator, so a zero denominator is out of the
function's domain and embedded as `none`. -/
def fromUnsignedPair (n d : ℕ) : Option ℚ :=
  if d = 0 then none else some (mkRat (n : ℤ) d)

/-- Release-mode (wrapping) semantics of `i64` multiplication: the
mathematical product reduced into `[-2^63, 2^63)`.  (In debug builds an
overflowing product aborts instead; either way no in-range product is
changed.) -/
def wrap64 (x : ℤ) : ℤ :=
  (x + 2 ^ 63) % 2 ^ 64 - 2 ^ 63

/-- Embedding of `impl From<(i64, i64)> for Rational` (rational.rs lines
253-265): the sign bit is computed as `(value.0 * value.1) < 0` in `i64`
arithmetic (which wraps on overflow), the magnitudes by `unsigned_abs`, and
the result is the reduced fraction, negated when the sign bit is set.
A zero denominator is out of `from_naturals`' domain, embedded as `none`. -/
def fromSignedPair (a b : ℤ) : Option ℚ :=
  if b = 0 then none
  else
    let isNegSign := wrap64 (a * b) < 0
    let r : ℚ := mkRat (a.natAbs : ℤ) b.natAbs
    some (if isNegSign then r * (-1) else r)

/-- Canonical form of a constructed rational value, as the spec states it:
lowest terms, strictly positive denominator, and zero represented uniquely
as numerator 0, denominator 1. -/
def canonical (x : ℚ) : Prop :=
  Nat.Coprime x.num.natAbs x.den ∧ 0 < x.den ∧ (x = 0 ↔ (x.num = 0 ∧ x.den = 1))

instance (x : ℚ) : Decidable (canonical x) := by
  unfold canonical
  infer_instance

end Rational

/-- The six classification flags named by the spec and used by
`rational.rs`: `Rational`, `Integer`, `UOne`, `Zero`, `Pos`, `Neg`. -/
inductive Flag where
  | rational
  | integer
  | uone
  | zero
  | pos
  | neg
  deriving DecidableEq

/-- Modelled from the spec: `Item` (defined in `calcu_rs::pattern`, which is
not under `src/`) is "a set of independent boolean facts about a value,
drawn from the universe `{Rational, Integer, UnitOne, Zero, Positive,
Negative}`" — a bit-set, with `|`/`|=` as set union and `has` as
membership.  Fields in order: rational, integer, uone, zero, pos, neg. -/
structure Item where
  rational : Bool
  integer : Bool
  uone : Bool
  zero : Bool
  pos : Bool
  neg : Bool
  deriving DecidableEq

namespace Item

/-- Modelled from the spec: bit-set union, the `|`/`|=` operator of `Item`. -/
def union (a b : Item) : Item :=
  ⟨a.rational || b.rational, a.integer || b.integer, a.uone || b.uone,
   a.zero || b.zero, a.pos || b.pos, a.neg || b.neg⟩

/-- Modelled from the spec: bit-set membership, `Item::has`. -/
def has (s : Item) : Flag → Bool
  | Flag.rational => s.rational
  | Flag.integer => s.integer
  | Flag.uone => s.uone
  | Flag.zero => s.zero
  | Flag.pos => s.pos
  | Flag.neg => s.neg

/-- Modelled from the spec: the singleton flag `Item::Rational`. -/
def Rational : Item := ⟨true, false, false, false, false, false⟩

/-- Modelled from the spec: the singleton flag `Item::Integer`. -/
def Integer : Item := ⟨false, true, false, false, false, false⟩

/-- Modelled from the spec: the singleton flag `Item::UOne`. -/
def UOne : Item := ⟨false, false, true, false, false, false⟩

/-- Modelled from the spec: the singleton flag `Item::Zero`. -/
def Zero : Item := ⟨false, false, false, true, false, false⟩

/-- Modelled from the spec: the singleton flag `Item::Pos`. -/
def Pos : Item := ⟨false, false, false, false, true, false⟩

/-- Modelled from the spec: the singleton flag `Item::Neg`. -/
def Neg : Item := ⟨false, false, false, false, false, true⟩

end Item

namespace Rational

/-- Embedding of `impl CalcursType for Rational`, method `desc`
(rational.rs lines 155-178): start from the `Rational` flag; if the value
is an integer add `Integer`, and additionally `UOne` when the (unsigned)
numerator equals `NAT_ONE`; finally add the sign flag from `sign()`. -/
def desc (x : ℚ) : Item :=
  let flags := Item.Rational
  let flags :=
    if is_int x then
      let flags := flags.union Item.Integer
      if x.num.natAbs = 1 then flags.union Item.UOne else flags
    else flags
  flags.union
    (match sign x with
     | Ordering.lt => Item.Neg
     | Ordering.eq => Item.Zero
     | Ordering.gt => Item.Pos)

end Rational

namespace Macros

/-- The field layout of a Rust struct declaration, as `syn` distinguishes
the cases matched by the `inherit` macro (macros/src/lib.rs lines 23-33):
named fields (`syn::Fields::Named`, each a name/type pair), positional
tuple fields (`syn::Fields::Unnamed`, types only), or a unit struct
(`syn::Fields::Unit`). -/
inductive StructFields where
  | named : List (String × String) → StructFields
  | unnamed : List String → StructFields
  | unit : StructFields
  deriving DecidableEq

/-- A struct declaration as consumed by the `inherit` attribute macro:
its name, its generics (carried through verbatim), and its fields. -/
structure ItemStruct where
  ident : String
  generics : String
  fields : StructFields
  deriving DecidableEq

/-- The code emitted by a successful `inherit` expansion: the augmented
struct declaration, plus an `Inherited<baseType>` impl for the struct whose
`base()` accessor returns a reference to the field named `accessorField`. -/
structure InheritOutput where
  struct : ItemStruct
  implTarget : String
  implGenerics : String
  implBaseType : String
  accessorField : String
  deriving DecidableEq

/-- The build-time error message produced by `inherit` on a non-named field
layout (macros/src/lib.rs lines 25-32). -/
def inheritErrorMsg : String :=
  "Only named fields are supported for adding the base field."

/-- Embedding of the `inherit` proc macro (macros/src/lib.rs lines 12-46):
on a struct with named fields it pushes one field `base: #base_type` and
emits the `calcurus_internals::Inherited<#base_type>` impl whose `base()`
returns `&self.base`; on any other field layout it returns
`syn::Error::into_compile_error`, which fails the build with the message. -/
def inherit (baseType : String) (item : ItemStruct) : Except String InheritOutput :=
  match item.fields with
  | StructFields.named fs =>
    Except.ok
      { struct := { ident := item.ident, generics := item.generics,
                    fields := StructFields.named (fs ++ [("base", baseType)]) },
        implTarget := item.ident,
        implGenerics := item.generics,
        implBaseType := baseType,
        accessorField := "base" }
  | _ => Except.error inheritErrorMsg

end Macros

namespace Rational

theorem sign_of_neg {x : ℚ} (h : x < 0) : sign x = Ordering.lt := by
  unfold sign
  rw [if_pos h]

theorem sign_of_zero {x : ℚ} (h : x = 0) : sign x = Ordering.eq := by
  unfold sign
  rw [if_neg (by rw [h]; exact lt_irrefl 0), if_pos h]

theorem sign_of_pos {x : ℚ} (h : 0 < x) : sign x = Ordering.gt := by
  unfold sign
  rw [if_neg (not_lt.mpr h.le), if_neg (ne_of_gt h)]

theorem is_zero_iff (x : ℚ) : is_zero x = true ↔ x = 0 := by
  constructor
  · intro h
    by_contra hne
    rcases lt_or_gt_of_ne hne with hlt | hgt
    · rw [is_zero, sign_of_neg hlt] at h
      exact Bool.noConfusion h
    · rw [is_zero, sign_of_pos hgt] at h
      exact Bool.noConfusion h
  · intro h
    rw [is_zero, sign_of_zero h]

theorem is_neg_iff (x : ℚ) : is_neg x = true ↔ x < 0 := by
  constructor
  · intro h
    rcases lt_trichotomy x 0 with hlt | heq | hgt
    · exact hlt
    · rw [is_neg, sign_of_zero heq] at h
      exact Bool.noConfusion h
    · rw [is_neg, sign_of_pos hgt] at h
      exact Bool.noConfusion h
  · intro h
    rw [is_neg, sign_of_neg h]

theorem is_pos_iff (x : ℚ) : is_pos x = true ↔ 0 < x := by
  constructor
  · intro h
    rcases lt_trichotomy x 0 with hlt | heq | hgt
    · rw [is_pos, sign_of_neg hlt] at h
      exact Bool.noConfusion h
    · rw [is_pos, sign_of_zero heq] at h
      exact Bool.noConfusion h
    · exact hgt
  · intro h
    rw [is_pos, sign_of_pos h]

theorem is_zero_eq_false {x : ℚ} (h : x ≠ 0) : is_zero x = false := by
  cases hb : is_zero x with
  | false => rfl
  | true => exact absurd ((is_zero_iff x).mp hb) h

theorem is_neg_eq_false {x : ℚ} (h : ¬x < 0) : is_neg x = false := by
  cases hb : is_neg x with
  | false => rfl
  | true => exact absurd ((is_neg_iff x).mp hb) h

theorem is_int_iff (x : ℚ) : is_int x = true ↔ x.den = 1 := by
  unfold is_int
  exact beq_iff_eq

/-- The structural numerator/denominator swap in `inverse` computes the
field inverse on every non-zero input. -/
theorem inverse_eq_inv {x : ℚ} (h : x ≠ 0) : inverse x = some x⁻¹ := by
  unfold inverse
  rw [if_neg (by simp [is_zero_eq_false h])]
  show some (if is_neg x = true then mkRat (x.den : ℤ) x.num.natAbs * (-1)
             else mkRat (x.den : ℤ) x.num.natAbs) = some x⁻¹
  rcases lt_or_gt_of_ne h with hlt | hgt
  · have hneg : is_neg x = true := (is_neg_iff x).mpr hlt
    have hnumneg : x.num < 0 :=
      lt_of_not_ge fun hge => absurd (Rat.num_nonneg.mp hge) (not_le.mpr hlt)
    have hcast : (x.num.natAbs : ℤ) = -x.num := by omega
    rw [if_pos hneg]
    congr 1
    calc mkRat (x.den : ℤ) x.num.natAbs * (-1)
        = Rat.divInt (x.den : ℤ) (x.num.natAbs : ℤ) * (-1) := by
          rw [Rat.mkRat_eq_divInt]
      _ = -Rat.divInt (x.den : ℤ) (-x.num) := by rw [hcast, mul_neg_one]
      _ = -Rat.divInt (-(x.den : ℤ)) x.num := by rw [Rat.divInt_neg]
      _ = Rat.divInt (x.den : ℤ) x.num := by rw [← Rat.neg_divInt, neg_neg]
      _ = x⁻¹ := (Rat.inv_def' x).symm
  · have hneg : is_neg x = false := is_neg_eq_false (not_lt.mpr hgt.le)
    have hnumpos : 0 < x.num := Rat.num_pos.mpr hgt
    have hcast : (x.num.natAbs : ℤ) = x.num := by omega
    rw [if_neg (by simp [hneg])]
    congr 1
    calc mkRat (x.den : ℤ) x.num.natAbs
        = Rat.divInt (x.den : ℤ) (x.num.natAbs : ℤ) := by rw [Rat.mkRat_eq_divInt]
      _ = Rat.divInt (x.den : ℤ) x.num := by rw [hcast]
      _ = x⁻¹ := (Rat.inv_def' x).symm

theorem is_pos_eq_false {x : ℚ} (h : ¬0 < x) : is_pos x = false := by
  cases hb : is_pos x with
  | false => rfl
  | true => exact absurd ((is_pos_iff x).mp hb) h

/-- On a positive exponent, `pow` runs straight into the body after the
`debug_assert!` (no zero-exponent return, no inversion). -/
theorem pow_of_pos {x e : ℚ} (he : 0 < e) : pow x e = powPositive x e := by
  unfold pow
  rw [is_zero_eq_false (ne_of_gt he), is_neg_eq_false (not_lt.mpr he.le)]
  simp

/-- Every branch of the code after the negative-exponent handling returns
normally: no panic is reachable from there. -/
theorem powPositive_ne_error (x e : ℚ) (f : PowFatal) :
    powPositive x e ≠ Except.error f := by
  unfold powPositive
  by_cases h1 : is_int e = true
  · rw [if_pos h1]
    by_cases h2 : e.num.natAbs ≤ 2 ^ 64 - 1
    · rw [if_pos h2]; simp
    · rw [if_neg h2]; simp
  · rw [if_neg h1]
    by_cases h3 : e.den < e.num.natAbs
    · rw [if_pos h3]
      show (if e.num.natAbs / e.den ≤ 2 ^ 64 - 1 then
              Except.ok (x ^ (e.num.natAbs / e.den), ((e.num.natAbs % e.den : ℕ) : ℚ))
            else Except.ok (x, e)) ≠ Except.error f
      by_cases h4 : e.num.natAbs / e.den ≤ 2 ^ 64 - 1
      · rw [if_pos h4]; simp
      · rw [if_neg h4]; simp
    · rw [if_neg h3]; simp

theorem is_zero_zero : is_zero (0 : ℚ) = true :=
  (is_zero_iff 0).mpr rfl

theorem inverse_zero : inverse (0 : ℚ) = none := by
  unfold inverse
  rw [if_pos is_zero_zero]

/-- C1 (code bug): at base 2 and exponent 5/3 the code computes quotient 1
and remainder 2 of 5 divided by 3, but returns the residual exponent as the
integer `2` (`Rational::from(rem)`), not `2/3` as the spec (and the code's
own comment "ensure that the exponent is < 1") require: `pow(2, 5/3) =
(2, 2)`, and `2 ≠ 2/3`. -/
theorem pow_fractional_residual_bug :
    pow 2 (5 / 3 : ℚ) = Except.ok (2, 2) ∧ (2 : ℚ) ≠ 2 / 3 := by
  constructor
  · with_unfolding_all rfl
  · with_unfolding_all decide

/-- C2 (code bug): `try_into_int` converts the unsigned numerator
(`numerator_ref`) with `i64::try_from`, so the sign is dropped: the integer
rational -1 (obtained from the signed pair (-1, 1)) converts to `Some(1)`,
not `Some(-1)`. -/
theorem try_into_int_sign_bug :
    fromSignedPair (-1) 1 = some (-1 : ℚ) ∧
    try_into_int (-1 : ℚ) = some 1 ∧ (1 : ℤ) ≠ -1 := by
  refine ⟨by with_unfolding_all rfl, by with_unfolding_all rfl, by decide⟩

/-- C3 (counterexample): calling `pow` with zero base and negative exponent
does NOT surface the failure as a recoverable "no value" outcome: it hits
`self.inverse().unwrap()` on `None` — a panic, i.e. a fatal error. -/
theorem pow_zero_neg_counterexample :
    pow 0 (-1 : ℚ) = Except.error PowFatal.inverseUnwrapNone := by
  with_unfolding_all rfl

/-- C3 (amended): with a zero base and any negative exponent, `pow` fails
because zero has no inverse, but the failure is a fatal panic (the `unwrap`
of `None`), not a recoverable outcome of `pow`; `inverse` itself does
surface the zero inversion as the recoverable `None`. -/
theorem pow_zero_neg_fatal_unwrap (e : ℚ) (he : e < 0) :
    pow 0 e = Except.error PowFatal.inverseUnwrapNone ∧ inverse (0 : ℚ) = none := by
  refine ⟨?_, inverse_zero⟩
  unfold pow
  rw [is_zero_eq_false (ne_of_lt he), Bool.and_false]
  rw [if_neg (by simp)]
  rw [if_neg (by simp)]
  rw [if_pos ((is_neg_iff e).mpr he)]
  rw [inverse_zero]

/-- Witness for C3's amended claim at the concrete exponent -1. -/
theorem pow_zero_neg_fatal_unwrap_witness :
    pow 0 (-1 : ℚ) = Except.error PowFatal.inverseUnwrapNone ∧
    inverse (0 : ℚ) = none :=
  pow_zero_neg_fatal_unwrap (-1) (by norm_num)

/-- C4: `pow` aborts with the distinguished `0^0` panic exactly when both
base and exponent are zero, and returns `(1, 1)` on a zero exponent with a
non-zero base. -/
theorem pow_zero_zero_contract (x e : ℚ) :
    (pow x e = Except.error PowFatal.zeroPowZero ↔ (x = 0 ∧ e = 0)) ∧
    (x ≠ 0 → pow x 0 = Except.ok (1, 1)) := by
  constructor
  · constructor
    · intro h
      by_cases hx : x = 0 <;> by_cases he : e = 0
      · exact ⟨hx, he⟩
      · exfalso
        unfold pow at h
        rw [is_zero_eq_false he, Bool.and_false] at h
        rw [if_neg (by simp), if_neg (by simp)] at h
        by_cases hne : is_neg e = true
        · rw [if_pos hne, hx, inverse_zero] at h
          exact PowFatal.noConfusion (Except.error.inj h)
        · rw [if_neg hne] at h
          exact powPositive_ne_error _ _ _ h
      · exfalso
        unfold pow at h
        rw [is_zero_eq_false hx, Bool.false_and] at h
        rw [he, is_zero_zero] at h
        rw [if_neg (by simp), if_pos rfl] at h
        exact Except.noConfusion h
      · exfalso
        unfold pow at h
        rw [is_zero_eq_false he, Bool.and_false] at h
        rw [if_neg (by simp), if_neg (by simp)] at h
        by_cases hne : is_neg e = true
        · rw [if_pos hne, inverse_eq_inv hx] at h
          exact powPositive_ne_error _ _ _ h
        · rw [if_neg hne] at h
          exact powPositive_ne_error _ _ _ h
    · rintro ⟨hx, he⟩
      subst hx
      subst he
      unfold pow
      rw [is_zero_zero]
      simp
  · intro hx
    unfold pow
    rw [is_zero_eq_false hx, Bool.false_and, is_zero_zero]
    rw [if_neg (by simp), if_pos rfl]

/-- Witness for C4 at the concrete inputs (0, 0) and (2, 0). -/
theorem pow_zero_zero_contract_witness :
    pow 0 0 = Except.error PowFatal.zeroPowZero ∧ pow 2 0 = Except.ok (1, 1) :=
  ⟨(pow_zero_zero_contract 0 0).1.mpr ⟨rfl, rfl⟩,
   (pow_zero_zero_contract 2 0).2 (by norm_num)⟩

/-- C5: for a positive integer exponent (the state after the
negative-exponent inversion step), `pow` returns the full exact power with
residual exponent 1 when the exponent's numerator fits `u64`, and returns
the pair unchanged when it does not; concretely `pow 2 3 = (8, 1)` and
`pow 2 (-1) = (1/2, 1)`. -/
theorem pow_int_exponent_contract (x e : ℚ) (hint : is_int e = true)
    (hpos : 0 < e) :
    (e.num.natAbs ≤ 2 ^ 64 - 1 → pow x e = Except.ok (x ^ e.num.natAbs, 1)) ∧
    (2 ^ 64 - 1 < e.num.natAbs → pow x e = Except.ok (x, e)) ∧
    pow 2 3 = Except.ok (8, 1) ∧ pow 2 (-1) = Except.ok (1 / 2, 1) := by
  refine ⟨?_, ?_, by with_unfolding_all rfl, by with_unfolding_all rfl⟩
  · intro hfit
    rw [pow_of_pos hpos]
    unfold powPositive
    rw [if_pos hint, if_pos hfit]
  · intro hbig
    rw [pow_of_pos hpos]
    unfold powPositive
    rw [if_pos hint, if_neg (not_le.mpr hbig)]

/-- Witness for C5 at base 2 and exponent 3 (and the huge exponent 2^64 for
the unchanged case). -/
theorem pow_int_exponent_contract_witness :
    pow 2 3 = Except.ok (8, 1) ∧ pow 2 (2 ^ 64 : ℚ) = Except.ok (2, 2 ^ 64) := by
  constructor
  · exact (pow_int_exponent_contract 2 3 (by with_unfolding_all rfl)
      (by norm_num)).2.2.1
  · have h := (pow_int_exponent_contract 2 (2 ^ 64 : ℚ)
      (by with_unfolding_all rfl) (by positivity)).2.1
    exact h (by with_unfolding_all decide)

/-- C6: division yields the exact quotient `a / b`, equal to
`a * inverse b`, whenever the divisor is non-zero, and yields nothing on a
zero divisor. -/
theorem divide_contract (a b : ℚ) (h : b ≠ 0) :
    divide a b = some (a / b) ∧
    divide a b = Option.map (fun i => a * i) (inverse b) ∧
    divide a 0 = none := by
  have h1 : divide a b = some (a / b) := by
    unfold divide
    rw [if_neg (by simp [is_zero_eq_false h])]
  refine ⟨h1, ?_, ?_⟩
  · rw [h1, inverse_eq_inv h]
    simp [div_eq_mul_inv]
  · unfold divide
    rw [if_pos is_zero_zero]

/-- Witness for C6 at the concrete inputs (3, 2). -/
theorem divide_contract_witness :
    divide 3 2 = some (3 / 2 : ℚ) ∧
    divide 3 2 = Option.map (fun i => (3 : ℚ) * i) (inverse 2) ∧
    divide 3 0 = none :=
  divide_contract 3 2 (by norm_num)

/-- Every value of the embedding type is canonical: this is the invariant
malachite maintains for `mal::Rational` and that the embedding carries in
the type (reduced fraction, positive denominator, zero as 0/1). -/
theorem canonical_all (x : ℚ) : canonical x := by
  refine ⟨x.reduced, x.den_pos, ?_⟩
  constructor
  · intro h
    subst h
    exact ⟨by with_unfolding_all rfl, by with_unfolding_all rfl⟩
  · rintro ⟨hnum, _⟩
    exact Rat.num_eq_zero.mp hnum

/-- C8: every value produced by the constructors (`From<i64>`,
`From<(u64, u64)>`, `From<(i64, i64)>`, the constants) and by every
arithmetic operation of `rational.rs` is in canonical form: numerator and
denominator coprime, denominator strictly positive, and zero represented
uniquely as numerator 0, denominator 1. -/
theorem canonical_invariant :
    (∀ n : ℤ, canonical (fromInt n)) ∧
    (∀ n d : ℕ, ∀ r, fromUnsignedPair n d = some r → canonical r) ∧
    (∀ a b : ℤ, ∀ r, fromSignedPair a b = some r → canonical r) ∧
    (canonical zero ∧ canonical one ∧ canonical minus_one) ∧
    (∀ a b : ℚ, canonical (add a b) ∧ canonical (sub a b) ∧ canonical (mul a b)) ∧
    (∀ a b : ℚ, ∀ r, divide a b = some r → canonical r) ∧
    (∀ a : ℚ, ∀ r, inverse a = some r → canonical r) ∧
    (∀ a : ℚ, canonical (abs a)) ∧
    (∀ x e : ℚ, ∀ b r, pow x e = Except.ok (b, r) → canonical b ∧ canonical r) :=
  ⟨fun _ => canonical_all _,
   fun _ _ _ _ => canonical_all _,
   fun _ _ _ _ => canonical_all _,
   ⟨canonical_all _, canonical_all _, canonical_all _⟩,
   fun _ _ => ⟨canonical_all _, canonical_all _, canonical_all _⟩,
   fun _ _ _ _ => canonical_all _,
   fun _ _ _ => canonical_all _,
   fun _ => canonical_all _,
   fun _ _ _ _ _ => ⟨canonical_all _, canonical_all _⟩⟩

/-- Witness for C8: the signed-pair constructor at (-6, 4) produces the
canonical value -3/2 (coprime, positive denominator), and division of 1 by
2 produces the canonical 1/2. -/
theorem canonical_invariant_witness :
    canonical (-3 / 2 : ℚ) ∧ canonical (1 / 2 : ℚ) := by
  constructor
  · exact canonical_invariant.2.2.1 (-6) 4 (-3 / 2 : ℚ) (by with_unfolding_all rfl)
  · exact canonical_invariant.2.2.2.2.2.1 1 2 (1 / 2 : ℚ) (by with_unfolding_all rfl)

/-- C9 (counterexample): on the pair (3037000500, 3037000500) — two
positive inputs — the `i64` product `value.0 * value.1` overflows and wraps
negative, so the constructor returns -1 instead of the sign-of-product
value +1. -/
theorem fromSignedPair_overflow_counterexample :
    fromSignedPair 3037000500 3037000500 = some (-1 : ℚ) ∧
    fromSignedPair 3037000500 3037000500 ≠ some (1 : ℚ) := by
  constructor
  · with_unfolding_all rfl
  · with_unfolding_all decide

/-- C9 (amended): for every signed pair with a non-zero denominator whose
true product fits in `i64` (no overflow in the sign computation), the
constructor derives the sign from the product of the inputs' signs and the
magnitudes from their absolute values, yielding the reduced value `a/b`;
concretely `from((-6, 4)) = from((6, -4)) = -3/2`. -/
theorem fromSignedPair_no_overflow (a b : ℤ) (hlo : -(2 ^ 63) ≤ a * b)
    (hhi : a * b < 2 ^ 63) (hb : b ≠ 0) :
    fromSignedPair a b = some ((a : ℚ) / (b : ℚ)) ∧
    fromSignedPair (-6) 4 = some (-(3 / 2) : ℚ) ∧
    fromSignedPair 6 (-4) = some (-(3 / 2) : ℚ) := by
  refine ⟨?_, by with_unfolding_all rfl, by with_unfolding_all rfl⟩
  unfold fromSignedPair
  rw [if_neg hb]
  have hw : wrap64 (a * b) = a * b := by
    unfold wrap64
    rw [Int.emod_eq_of_lt (by omega) (by omega)]
    omega
  rw [hw]
  show some (if a * b < 0 then mkRat (a.natAbs : ℤ) b.natAbs * (-1)
             else mkRat (a.natAbs : ℤ) b.natAbs) = some ((a : ℚ) / (b : ℚ))
  have hB : (b : ℚ) ≠ 0 := Int.cast_ne_zero.mpr hb
  have hmk : (mkRat (a.natAbs : ℤ) b.natAbs : ℚ) = |(a : ℚ)| / |(b : ℚ)| := by
    rw [Rat.mkRat_eq_div]
    push_cast [Int.cast_natAbs]
    rfl
  by_cases hsig : a * b < 0
  · rw [if_pos hsig, hmk]
    have hABneg : (a : ℚ) / (b : ℚ) < 0 := by
      have hcast : (a : ℚ) * (b : ℚ) < 0 := by exact_mod_cast hsig
      rcases mul_neg_iff.mp hcast with ⟨h1, h2⟩ | ⟨h1, h2⟩
      · exact div_neg_of_pos_of_neg h1 h2
      · exact div_neg_of_neg_of_pos h1 h2
    rw [mul_neg_one, ← abs_div, abs_of_neg hABneg, neg_neg]
  · rw [if_neg hsig, hmk]
    have hABnn : 0 ≤ (a : ℚ) / (b : ℚ) := by
      have hcast : 0 ≤ (a : ℚ) * (b : ℚ) := by exact_mod_cast not_lt.mp hsig
      rcases mul_nonneg_iff.mp hcast with ⟨h1, h2⟩ | ⟨h1, h2⟩
      · exact div_nonneg h1 h2
      · exact div_nonneg_iff.mpr (Or.inr ⟨h1, h2⟩)
    rw [← abs_div, abs_of_nonneg hABnn]

/-- Witness for C9's amended claim at the concrete pair (-6, 4). -/
theorem fromSignedPair_no_overflow_witness :
    fromSignedPair (-6) 4 = some ((-6 : ℚ) / (4 : ℚ)) := by
  exact (fromSignedPair_no_overflow (-6) 4 (by norm_num) (by norm_num)
    (by norm_num)).1

/-- An integer rational has magnitude one exactly when its unsigned
numerator is one (the check `num == &NAT_ONE` in `desc`); over all
rationals, magnitude one is equivalent to denominator 1 and unsigned
numerator 1, thanks to the lowest-terms invariant. -/
theorem abs_eq_one_iff (x : ℚ) : |x| = 1 ↔ (x.den = 1 ∧ x.num.natAbs = 1) := by
  constructor
  · intro h
    rcases (abs_eq (by norm_num : (0 : ℚ) ≤ 1)).mp h with h1 | h1
    · subst h1
      exact ⟨by with_unfolding_all rfl, by with_unfolding_all rfl⟩
    · subst h1
      exact ⟨by with_unfolding_all rfl, by with_unfolding_all rfl⟩
  · rintro ⟨hden, hnum⟩
    have hx : (x.num : ℚ) = x := (Rat.den_eq_one_iff x).mp hden
    rcases Int.natAbs_eq_iff.mp hnum with h1 | h1
    · rw [← hx, h1]
      norm_num
    · rw [← hx, h1]
      norm_num

/-- Closed form of `desc`: the flag set it builds, field by field. -/
theorem desc_eq (x : ℚ) :
    desc x = ⟨true, is_int x, is_int x && decide (x.num.natAbs = 1),
              is_zero x, is_pos x, is_neg x⟩ := by
  unfold desc
  rcases lt_trichotomy x 0 with hlt | heq | hgt
  · rw [sign_of_neg hlt, is_zero_eq_false (ne_of_lt hlt),
        is_pos_eq_false (asymm hlt), (is_neg_iff x).mpr hlt]
    cases hint : is_int x
    · simp [Item.union, Item.Rational, Item.Neg]
    · by_cases h1 : x.num.natAbs = 1
      · simp [h1, Item.union, Item.Rational, Item.Integer, Item.UOne, Item.Neg]
      · simp [h1, Item.union, Item.Rational, Item.Integer, Item.Neg]
  · subst heq
    rw [sign_of_zero rfl, is_zero_zero, is_pos_eq_false (lt_irrefl 0),
        is_neg_eq_false (lt_irrefl 0)]
    cases hint : is_int (0 : ℚ)
    · simp [Item.union, Item.Rational, Item.Zero]
    · by_cases h1 : (0 : ℚ).num.natAbs = 1
      · simp [h1, Item.union, Item.Rational, Item.Integer, Item.UOne, Item.Zero]
      · simp [h1, Item.union, Item.Rational, Item.Integer, Item.Zero]
  · rw [sign_of_pos hgt, is_zero_eq_false (ne_of_gt hgt),
        (is_pos_iff x).mpr hgt, is_neg_eq_false (asymm hgt)]
    cases hint : is_int x
    · simp [Item.union, Item.Rational, Item.Pos]
    · by_cases h1 : x.num.natAbs = 1
      · simp [h1, Item.union, Item.Rational, Item.Integer, Item.UOne, Item.Pos]
      · simp [h1, Item.union, Item.Rational, Item.Integer, Item.Pos]

/-- C7: for every rational value, `desc` sets the `Rational` flag, adds
`Integer` exactly when `is_int` holds, adds `UOne` exactly when the
magnitude is one, sets exactly one of `Zero`/`Pos`/`Neg`, and its sign
flags agree with `is_zero`/`is_pos`/`is_neg`. -/
theorem desc_contract (x : ℚ) :
    (desc x).has Flag.rational = true ∧
    ((desc x).has Flag.integer = true ↔ is_int x = true) ∧
    ((desc x).has Flag.uone = true ↔ |x| = 1) ∧
    ((desc x).has Flag.zero).toNat + ((desc x).has Flag.pos).toNat
      + ((desc x).has Flag.neg).toNat = 1 ∧
    (desc x).has Flag.zero = is_zero x ∧
    (desc x).has Flag.pos = is_pos x ∧
    (desc x).has Flag.neg = is_neg x := by
  rw [desc_eq]
  simp only [Item.has]
  refine ⟨trivial, trivial, ?_, ?_, trivial, trivial, trivial⟩
  · simp [Bool.and_eq_true, decide_eq_true_eq, is_int_iff, abs_eq_one_iff]
  · rcases lt_trichotomy x 0 with hlt | heq | hgt
    · rw [is_zero_eq_false (ne_of_lt hlt), is_pos_eq_false (asymm hlt),
          (is_neg_iff x).mpr hlt]
      rfl
    · subst heq
      rw [is_zero_zero, is_pos_eq_false (lt_irrefl 0),
          is_neg_eq_false (lt_irrefl 0)]
      rfl
    · rw [is_zero_eq_false (ne_of_gt hgt), (is_pos_iff x).mpr hgt,
          is_neg_eq_false (asymm hgt)]
      rfl

end Rational

/-- C10: given a struct declaration, the `inherit` macro on a named-field
layout appends exactly one field `base` of the declared base type and emits
the `Inherited` impl whose accessor returns a reference to that field; on a
tuple or unit layout it produces a build-failing compile error carrying a
non-empty descriptive message. -/
theorem inherit_contract :
    (∀ (baseType name generics : String) (fs : List (String × String)),
      Macros.inherit baseType ⟨name, generics, Macros.StructFields.named fs⟩ =
        Except.ok
          { struct := ⟨name, generics,
              Macros.StructFields.named (fs ++ [("base", baseType)])⟩,
            implTarget := name,
            implGenerics := generics,
            implBaseType := baseType,
            accessorField := "base" }) ∧
    (∀ (baseType name generics : String) (ts : List String),
      Macros.inherit baseType ⟨name, generics, Macros.StructFields.unnamed ts⟩ =
        Except.error Macros.inheritErrorMsg) ∧
    (∀ (baseType name generics : String),
      Macros.inherit baseType ⟨name, generics, Macros.StructFields.unit⟩ =
        Except.error Macros.inheritErrorMsg) ∧
    Macros.inheritErrorMsg ≠ "" :=
  ⟨fun _ _ _ _ => rfl, fun _ _ _ _ => rfl, fun _ _ _ => rfl, by decide⟩

end Calcurs
